import Mathlib

/-!
Verification of the isosteric-replacements enumeration workbook
(`isosteric-replacements-expanded.ipynb`).

The notebook is thin orchestration over RDKit and pandas:
  * the rule table is loaded with
    `pd.read_csv(..., sep=";", on_bad_lines="skip", comment="#")`;
  * the distinct values of the `R_group` (SMILES) and
    `R-group to search for` (SMARTS) columns are computed with
    `Series.unique()`;
  * every distinct SMARTS pattern is tested once against the input
    molecule with `Mol.HasSubstructMatch`, the Boolean flags are paired
    positionally with the distinct SMILES labels, and the default
    candidate table is `query("Found == True")`;
  * the user picks rows manually with `iloc`;
  * the enumeration loop runs `AllChem.ReactionFromSmarts(item)`,
    `rxn.RunReactants([molecule])` and appends
    `Chem.MolToSmiles(products[0][0])`;
  * duplicates are removed with `Series.unique()` (order of first
    appearance) and the result is written with `Series.to_csv(index=False)`.

This file embeds those steps as executable Lean functions.  Molecules and
patterns are small typed graphs; substructure matching is exhaustive
injective subgraph embedding over a deterministic candidate order, which is
the documented semantics of RDKit's substructure search.  Python exceptions
(the unguarded `products[0][0]` indexing) are embedded as `Option`.
-/

set_option maxRecDepth 8000

namespace IsoRep

/-- A bond of a molecule graph: endpoint atom indices and a bond order.
Order `1`, `2`, `3` are single/double/triple; order `4` stands for an
aromatic bond.  Bonds are undirected: `⟨a, b, o⟩` and `⟨b, a, o⟩` denote
the same bond. -/
structure Bond where
  a : Nat
  b : Nat
  order : Nat
deriving DecidableEq, Repr

/-- A molecule: atoms are element symbols listed by index, plus a bond
list.  This embeds RDKit's `Mol` at the granularity the notebook uses
(2D connectivity only, as the spec's §1 states). -/
structure Molecule where
  atoms : List String
  bonds : List Bond
deriving DecidableEq, Repr

/-- A query-pattern bond: pattern-atom indices and an optional bond-order
constraint (`none` matches any order). -/
structure PBond where
  i : Nat
  j : Nat
  order : Option Nat
deriving DecidableEq, Repr

/-- A search pattern (embedded parsed form of a SMARTS string): atom
constraints are element symbols, `"*"` being the wildcard, plus bond
constraints. -/
structure Pattern where
  atoms : List String
  bonds : List PBond
deriving DecidableEq, Repr

/-- Does a pattern atom constraint accept a molecule atom? `"*"` is the
any-atom wildcard used by the table's `C[*]`-style patterns. -/
def atomCompat (q : String) (a : String) : Bool :=
  q == "*" || q == a

/-- Does the molecule have a bond between atoms `u` and `v` satisfying the
order constraint `ord` (in either direction)? -/
def bondMatch (mol : Molecule) (u v : Nat) (ord : Option Nat) : Bool :=
  mol.bonds.any (fun b =>
    ((b.a == u && b.b == v) || (b.a == v && b.b == u)) &&
      (match ord with
       | none => true
       | some o => b.order == o))

/-- Is the assignment `f` (the image list: pattern atom `i` goes to
molecule atom `f.get i`) a valid substructure match: correct arity,
injective, atom constraints satisfied, bond constraints satisfied? -/
def isMatchMap (pat : Pattern) (mol : Molecule) (f : List Nat) : Bool :=
  (f.length == pat.atoms.length) &&
  decide f.Nodup &&
  ((pat.atoms.zip f).all (fun qa =>
    match mol.atoms[qa.2]? with
    | some a => atomCompat qa.1 a
    | none => false)) &&
  (pat.bonds.all (fun pb =>
    match f[pb.i]?, f[pb.j]? with
    | some u, some v => bondMatch mol u v pb.order
    | _, _ => false))

/-- All length-`k` tuples over `{0, ..., n-1}`, in lexicographic order.
This fixes the deterministic candidate order of the backtracking search. -/
def allTuples : Nat → Nat → List (List Nat)
  | 0, _ => [[]]
  | k + 1, n => ((List.range n).map (fun i => (allTuples k n).map (fun t => i :: t))).flatten

/-- All substructure matches of `pat` in `mol`, in the deterministic
search order.  Embeds the match enumeration underlying RDKit's
substructure search (`GetSubstructMatches` order). -/
def substructMatches (pat : Pattern) (mol : Molecule) : List (List Nat) :=
  (allTuples pat.atoms.length mol.atoms.length).filter (isMatchMap pat mol)

/-- Embeds `Mol.HasSubstructMatch(pattern)`: does at least one match
exist? -/
def hasSubstructMatch (pat : Pattern) (mol : Molecule) : Bool :=
  !(substructMatches pat mol).isEmpty

/-- The atom set of a match `xs` is contained in that of `ys` and is
strictly smaller (set-containment on the matched atom indices). -/
def atomSetSSubset (xs ys : List Nat) : Prop :=
  (∀ a ∈ xs, a ∈ ys) ∧ ∃ a ∈ ys, a ∉ xs

instance (xs ys : List Nat) : Decidable (atomSetSSubset xs ys) := by
  unfold atomSetSSubset; infer_instance

/-- A reaction (embedded parsed form of a `Reaction (SMARTS)` cell): the
reactant-side search pattern and the rewrite applied at a matched site.
Each reaction of the table has a single product template, so one match
yields one product. -/
structure Reaction where
  pattern : Pattern
  transform : Molecule → List Nat → Molecule

/-- Embeds `rxn.RunReactants([molecule])`: one product set per match of
the reactant pattern, in the deterministic match order; each product set
is the singleton produced by the rule's single product template. -/
def runReactants (r : Reaction) (mol : Molecule) : List (List Molecule) :=
  (substructMatches r.pattern mol).map (fun m => [r.transform mol m])

/-- Embeds `Chem.MolToSmiles`: a deterministic serialization of the
molecule graph, used by the notebook only as a dedup key and as the
exported line notation. -/
def molToSmiles (m : Molecule) : String :=
  String.intercalate "." m.atoms ++ "|" ++
    String.intercalate "." (m.bonds.map (fun b =>
      toString b.a ++ "-" ++ toString b.b ++ ":" ++ toString b.order))

/-- Replace the element symbol of atom `i` (used to build concrete
rewrites for test molecules). -/
def substAtom (mol : Molecule) (i : Nat) (el : String) : Molecule :=
  { atoms := mol.atoms.set i el, bonds := mol.bonds }

/-- Worker of `seriesUnique`: keep a value if it is not in the seen-set,
then record it. -/
def uniqueGo [DecidableEq α] (seen : List α) : List α → List α
  | [] => []
  | x :: xs => if x ∈ seen then uniqueGo seen xs else x :: uniqueGo (x :: seen) xs

/-- Embeds pandas `Series.unique()`: the distinct values of a column in
order of first appearance. -/
def seriesUnique [DecidableEq α] (l : List α) : List α :=
  uniqueGo [] l

/-- First-seen deduplication stated structurally: keep the head and
deduplicate the tail with all further copies of the head removed.  Used
to state that `seriesUnique` output is in first-seen order. -/
def firstSeenSpec [DecidableEq α] : List α → List α
  | [] => []
  | x :: xs => x :: firstSeenSpec (xs.filter (fun y => decide (y ≠ x)))
termination_by l => l.length
decreasing_by
  simp only [List.length_cons]
  exact Nat.lt_succ_of_le (List.length_filter_le _ _)

/-- One iteration of the enumeration loop body: embeds
`products = rxn.RunReactants([molecule]);`
`...append(Chem.MolToSmiles(products[0][0]))`.
The unguarded Python indexing `products[0][0]` is embedded as `Option`:
`none` is the `IndexError` raised when there is no product set. -/
def enumStep (mol : Molecule) (r : Reaction) : Option String :=
  match (runReactants r mol).head? with
  | none => none
  | some firstSet => firstSet.head?.map molToSmiles

/-- The enumeration loop over the selected reactions, in table order.  A
raised `IndexError` (`enumStep = none`) aborts the whole loop, as an
uncaught Python exception would. -/
def enumLoop (mol : Molecule) : List Reaction → Option (List String)
  | [] => some []
  | r :: rs =>
    match enumStep mol r with
    | none => none
    | some s => (enumLoop mol rs).map (fun out => s :: out)

/-- The pipeline after the loop: embeds the
`enumerated_molecules[...].unique()` deduplication cell applied to the raw
product SMILES list. -/
def enumerate (mol : Molecule) (rxns : List Reaction) : Option (List String) :=
  (enumLoop mol rxns).map seriesUnique

/-- Embeds `Series.to_csv(path, index=False)` on the final column: the
header line once, then one line per unique product, in order. -/
def exportCsvLines (products : List String) : List String :=
  "Suggestions (SMILES)" :: products

/-- One row of the isostere table as used by the matching cells: the
`R_group` column (SMILES display form) and the `R-group to search for`
column (SMARTS search pattern, embedded in parsed form). -/
structure RuleRow where
  r_group : String
  r_group_smarts : Pattern
deriving DecidableEq

/-- Embeds `isosteres["R_group"].unique()`. -/
def unique_R_groups_smiles (rows : List RuleRow) : List String :=
  seriesUnique (rows.map (fun r => r.r_group))

/-- Embeds `isosteres["R-group to search for"].unique()`. -/
def unique_R_groups_smarts (rows : List RuleRow) : List Pattern :=
  seriesUnique (rows.map (fun r => r.r_group_smarts))

/-- Embeds the `r_groups_found` DataFrame: the distinct SMILES labels
paired positionally (by DataFrame index) with the `Found` flags, where
flag `i` is `HasSubstructMatch` of the `i`-th distinct SMARTS pattern. -/
def r_groups_found (mol : Molecule) (rows : List RuleRow) : List (String × Bool) :=
  (unique_R_groups_smiles rows).zip
    ((unique_R_groups_smarts rows).map (fun p => hasSubstructMatch p mol))

/-- Embeds `r_groups_found.query("Found == True")`: the default candidate
list the notebook presents before any manual `iloc` selection. -/
def r_groups_found_filtered (mol : Molecule) (rows : List RuleRow) : List (String × Bool) :=
  (r_groups_found mol rows).filter (fun pr => pr.2)

/-- Association-list lookup with decidable key equality (the memo table
of per-pattern match results). -/
def lookupB [DecidableEq α] (a : α) : List (α × β) → Option β
  | [] => none
  | (k, v) :: rest => if a = k then some v else lookupB a rest

/-- Applicable rules computed as the notebook does: the matcher runs once
per distinct search pattern, and every rule row reuses the memoized
result for its pattern. -/
def findApplicableMemo (mol : Molecule) (rows : List RuleRow) : List RuleRow :=
  rows.filter (fun r =>
    (lookupB r.r_group_smarts
      ((unique_R_groups_smarts rows).map (fun p => (p, hasSubstructMatch p mol)))).getD false)

/-- Applicable rules computed the naive way the claim compares against:
the matcher runs separately for every rule row. -/
def findApplicablePerRow (mol : Molecule) (rows : List RuleRow) : List RuleRow :=
  rows.filter (fun r => hasSubstructMatch r.r_group_smarts mol)

/-- Modelled from the spec: the post-rewrite structural sanity check of
§4.4, which is absent from the notebook's enumeration loop.  An atom's
bond-order sum must not exceed a valence cap for its element, and every
aromatic bond must sit in a locally consistent aromatic system (an atom
is incident to either zero or at least two aromatic bonds — a single
dangling aromatic bond cannot be kekulized). -/
def structuralSanityCheck (m : Molecule) : Bool :=
  (List.range m.atoms.length).all (fun i =>
    let incident := m.bonds.filter (fun b => b.a == i || b.b == i)
    let aromDeg := (incident.filter (fun b => b.order == 4)).length
    let orderSum := incident.foldl (fun acc b => acc + (if b.order == 4 then 1 else b.order)) 0
    (aromDeg == 0 || decide (2 ≤ aromDeg)) &&
      decide (orderSum ≤ maxValence (m.atoms.getD i "*")))
where
  /-- A simple valence cap per element; generous default for others. -/
  maxValence : String → Nat
  | "C" => 4
  | "N" => 3
  | "O" => 2
  | "F" => 1
  | "Cl" => 1
  | "S" => 6
  | _ => 8

/-! ### Rule-table loading

Embeds `pd.read_csv("...", sep=";", encoding="utf-8", on_bad_lines="skip",
quotechar='"', comment="#")` at the granularity the claims need: lines are
split on `;`; blank lines are skipped; a line whose first character is `#`
is ignored entirely; a line with more fields than the schema holds is a
"bad line" and is dropped (`on_bad_lines="skip"`), never fatal; a line
with fewer fields is kept, the missing trailing fields read as missing
values. -/

/-- Split a character list on `;`, accumulating the current field. -/
def splitFieldsAux : List Char → List Char → List (List Char)
  | [], acc => [acc.reverse]
  | c :: cs, acc =>
    if c = ';' then acc.reverse :: splitFieldsAux cs [] else splitFieldsAux cs (c :: acc)

/-- Split a raw line into its `;`-separated fields. -/
def splitSemicolon (s : String) : List String :=
  (splitFieldsAux s.data []).map String.mk

/-- Does the line start with the comment marker `#`?  (`comment="#"`:
such lines are ignored entirely.) -/
def isCommentLine (s : String) : Bool :=
  match s.data with
  | [] => false
  | c :: _ => c = '#'

/-- Is the line blank?  (pandas `skip_blank_lines` default.) -/
def lineIsEmpty (s : String) : Bool :=
  s.data.isEmpty

/-- Pad a field list to the schema width with missing values. -/
def padFields (ncols : Nat) (fs : List String) : List (Option String) :=
  fs.map some ++ List.replicate (ncols - fs.length) none

/-- Parse one raw line of the rule-table file against a schema of
`ncols` columns; `none` means the line contributes no row. -/
def parseCsvRow (ncols : Nat) (line : String) : Option (List (Option String)) :=
  if lineIsEmpty line then none
  else if isCommentLine line then none
  else if ncols < (splitSemicolon line).length then none
  else some (padFields ncols (splitSemicolon line))

/-- A line the loader accepts: non-blank, not a comment, and its fields
fit the schema (missing trailing fields are allowed and padded). -/
def wellFormedLine (ncols : Nat) (line : String) : Bool :=
  !(lineIsEmpty line) && !(isCommentLine line) &&
    decide ((splitSemicolon line).length ≤ ncols)

/-- Embeds the whole `pd.read_csv` call: the loaded table, one row per
accepted line, in file order.  Total: malformed input never aborts the
load. -/
def loadTable (ncols : Nat) (lines : List String) : List (List (Option String)) :=
  lines.filterMap (parseCsvRow ncols)

/-! ### Concrete test molecules, patterns and reactions

Small closed instances used by the witnesses and counterexamples below. -/

/-- A difluoromethylene test fragment: atoms `C, F, F` with two single
C-F bonds. -/
def molCF2 : Molecule :=
  { atoms := ["C", "F", "F"], bonds := [⟨0, 1, 1⟩, ⟨0, 2, 1⟩] }

/-- A test molecule with two disjoint C-F sites: atoms `C, F, C, F`,
bonds `0-1` and `2-3`. -/
def mol2CF : Molecule :=
  { atoms := ["C", "F", "C", "F"], bonds := [⟨0, 1, 1⟩, ⟨2, 3, 1⟩] }

/-- Search pattern for a single C-F bond. -/
def patCF : Pattern :=
  { atoms := ["C", "F"], bonds := [⟨0, 1, some 1⟩] }

/-- Search pattern for the full CF2 fragment. -/
def patCF2 : Pattern :=
  { atoms := ["C", "F", "F"], bonds := [⟨0, 1, some 1⟩, ⟨0, 2, some 1⟩] }

/-- Search pattern for a nitrogen atom (matches nothing in the test
molecules). -/
def patN : Pattern :=
  { atoms := ["N"], bonds := [] }

/-- A concrete rule: replace the fluorine of a matched C-F site by
chlorine. -/
def rCl : Reaction :=
  { pattern := patCF, transform := fun mol m => substAtom mol (m.getD 1 0) "Cl" }

/-- A structurally invalid product: two atoms joined by one dangling
aromatic bond, which no consistent aromatic ring assignment can cover. -/
def badProduct : Molecule :=
  { atoms := ["C", "C"], bonds := [⟨0, 1, 4⟩] }

/-- A concrete rule whose rewrite yields the unkekulizable `badProduct`. -/
def rBad : Reaction :=
  { pattern := patCF, transform := fun _ _ => badProduct }

/-- A concrete rule whose search pattern has no match in the test
molecules. -/
def rNone : Reaction :=
  { pattern := patN, transform := fun mol _ => mol }

/-- A concrete two-row rule table: a CF2 group and its C-F sub-fragment. -/
def rowsCF : List RuleRow :=
  [⟨"FCF", patCF2⟩, ⟨"CF", patCF⟩]

/-! ### Helper lemmas -/

theorem mem_uniqueGo [DecidableEq α] (l : List α) : ∀ (seen : List α) (x : α),
    x ∈ uniqueGo seen l ↔ x ∈ l ∧ x ∉ seen := by
  induction l with
  | nil => intro seen x; simp [uniqueGo]
  | cons a as ih =>
    intro seen x
    by_cases ha : a ∈ seen
    · simp only [uniqueGo, if_pos ha, ih, List.mem_cons]
      constructor
      · rintro ⟨h1, h2⟩; exact ⟨Or.inr h1, h2⟩
      · rintro ⟨h1 | h1, h2⟩
        · exact absurd (h1 ▸ ha) h2
        · exact ⟨h1, h2⟩
    · simp only [uniqueGo, if_neg ha, List.mem_cons, ih, List.mem_cons]
      by_cases hxa : x = a
      · subst hxa; simp [ha]
      · simp [hxa]

theorem nodup_uniqueGo [DecidableEq α] (l : List α) : ∀ (seen : List α),
    (uniqueGo seen l).Nodup := by
  induction l with
  | nil => intro seen; simp [uniqueGo]
  | cons a as ih =>
    intro seen
    by_cases ha : a ∈ seen
    · simpa [uniqueGo, if_pos ha] using ih seen
    · have hnm : a ∉ uniqueGo (a :: seen) as := fun hmem =>
        ((mem_uniqueGo as (a :: seen) a).mp hmem).2 (List.mem_cons_self a seen)
      simp [uniqueGo, if_neg ha, List.nodup_cons, hnm, ih (a :: seen)]

theorem mem_seriesUnique [DecidableEq α] (l : List α) (x : α) :
    x ∈ seriesUnique l ↔ x ∈ l := by
  simp [seriesUnique, mem_uniqueGo]

theorem nodup_seriesUnique [DecidableEq α] (l : List α) : (seriesUnique l).Nodup :=
  nodup_uniqueGo l []

theorem uniqueGo_eq_firstSeenSpec [DecidableEq α] (l : List α) : ∀ (seen : List α),
    uniqueGo seen l = firstSeenSpec (l.filter (fun y => decide (y ∉ seen))) := by
  induction l with
  | nil => intro seen; simp [uniqueGo, firstSeenSpec]
  | cons a as ih =>
    intro seen
    by_cases ha : a ∈ seen
    · rw [List.filter_cons_of_neg (by simpa using ha)]
      simpa [uniqueGo, if_pos ha] using ih seen
    · rw [List.filter_cons_of_pos (by simpa using ha)]
      rw [firstSeenSpec]
      rw [List.filter_filter]
      have hptwise : ∀ y ∈ as,
          ((decide (y ≠ a) : Bool) && decide (y ∉ seen)) = decide (y ∉ a :: seen) := by
        intro y _
        by_cases h1 : y = a
        · simp [h1]
        · by_cases h2 : y ∈ seen <;> simp [h1, h2]
      rw [List.filter_congr hptwise]
      rw [uniqueGo, if_neg ha, ih (a :: seen)]

theorem seriesUnique_eq_firstSeenSpec [DecidableEq α] (l : List α) :
    seriesUnique l = firstSeenSpec l := by
  rw [seriesUnique, uniqueGo_eq_firstSeenSpec l []]
  congr 1
  simp

theorem lookupB_map_self [DecidableEq α] (f : α → β) (l : List α) (p : α) (hp : p ∈ l) :
    lookupB p (l.map (fun x => (x, f x))) = some (f p) := by
  induction l with
  | nil => cases hp
  | cons a as ih =>
    by_cases h : p = a
    · subst h; simp [lookupB]
    · rcases List.mem_cons.mp hp with h1 | h1
      · exact absurd h1 h
      · simp [lookupB, h, ih h1]

theorem zip_getElem?_eq_some {α β : Type} : ∀ (l1 : List α) (l2 : List β) (i : Nat)
    (a : α) (b : β), (l1.zip l2)[i]? = some (a, b) ↔ l1[i]? = some a ∧ l2[i]? = some b
  | [], l2, i, a, b => by simp
  | x :: xs, [], i, a, b => by simp
  | x :: xs, y :: ys, 0, a, b => by
    simp [List.zip_cons_cons, And.comm]
  | x :: xs, y :: ys, i + 1, a, b => by
    simpa [List.zip_cons_cons] using zip_getElem?_eq_some xs ys i a b

theorem enumStep_eq_none_iff (mol : Molecule) (r : Reaction) :
    enumStep mol r = none ↔ runReactants r mol = [] := by
  cases hm : substructMatches r.pattern mol <;> simp [enumStep, runReactants, hm]

theorem enumStep_eq_some_iff (mol : Molecule) (r : Reaction) (s : String) :
    enumStep mol r = some s ↔
      ∃ m ms, substructMatches r.pattern mol = m :: ms ∧
        s = molToSmiles (r.transform mol m) := by
  cases hm : substructMatches r.pattern mol with
  | nil => simp [enumStep, runReactants, hm]
  | cons m ms =>
    simp only [enumStep, runReactants, hm, List.map_cons, List.head?_cons,
      List.head?, Option.map_some', Option.some.injEq]
    constructor
    · intro h; exact ⟨m, ms, rfl, h.symm⟩
    · rintro ⟨m', ms', heq, rfl⟩
      injection heq with h1 h2
      rw [h1]

theorem enumLoop_spec_aux (mol : Molecule) (rxns : List Reaction) (out : List String)
    (h : enumLoop mol rxns = some out) :
    out.length = rxns.length ∧
      ∀ i (hi : i < rxns.length), ∃ m ms,
        substructMatches (rxns[i]).pattern mol = m :: ms ∧
        out[i]? = some (molToSmiles ((rxns[i]).transform mol m)) := by
  induction rxns generalizing out with
  | nil =>
    simp only [enumLoop, Option.some.injEq] at h
    subst h
    exact ⟨rfl, fun i hi => absurd hi (Nat.not_lt_zero i)⟩
  | cons r rs ih =>
    cases hstep : enumStep mol r with
    | none => rw [enumLoop, hstep] at h; cases h
    | some s =>
      rw [enumLoop, hstep] at h
      rcases Option.map_eq_some'.mp h with ⟨out', hrs, rfl⟩
      obtain ⟨hlen, hidx⟩ := ih out' hrs
      refine ⟨by simp [hlen], ?_⟩
      intro i hi
      match i with
      | 0 =>
        rcases (enumStep_eq_some_iff mol r s).mp hstep with ⟨m, ms, hm, rfl⟩
        exact ⟨m, ms, by simpa using hm, by simp⟩
      | Nat.succ j =>
        have hj : j < rs.length := Nat.lt_of_succ_lt_succ (by simpa using hi)
        rcases hidx j hj with ⟨m, ms, hm, hout⟩
        exact ⟨m, ms, by simpa using hm, by simpa using hout⟩

theorem enumLoop_isSome_iff (mol : Molecule) (rxns : List Reaction) :
    (enumLoop mol rxns).isSome = true ↔ ∀ r ∈ rxns, runReactants r mol ≠ [] := by
  induction rxns with
  | nil => simp [enumLoop]
  | cons r rs ih =>
    cases hstep : enumStep mol r with
    | none =>
      have hempty : runReactants r mol = [] := (enumStep_eq_none_iff mol r).mp hstep
      simp [enumLoop, hstep, hempty]
    | some s =>
      have hne : runReactants r mol ≠ [] := by
        intro he
        rw [(enumStep_eq_none_iff mol r).mpr he] at hstep
        cases hstep
      simp [enumLoop, hstep, List.forall_mem_cons, hne, ih]

theorem lineIsEmpty_eq_false_of_comment (l : String) (h : isCommentLine l = true) :
    lineIsEmpty l = false := by
  unfold isCommentLine at h
  unfold lineIsEmpty
  cases hd : l.data with
  | nil => rw [hd] at h; cases h
  | cons c cs => simp [hd]

theorem parseCsvRow_eq_ite (ncols : Nat) (l : String) :
    parseCsvRow ncols l =
      if wellFormedLine ncols l then some (padFields ncols (splitSemicolon l)) else none := by
  unfold parseCsvRow wellFormedLine
  by_cases h1 : lineIsEmpty l = true
  · simp [h1]
  · by_cases h2 : isCommentLine l = true
    · simp [h1, h2]
    · by_cases h3 : (splitSemicolon l).length ≤ ncols
      · simp [h1, h2, h3, Nat.not_lt.mpr h3]
      · simp [h1, h2, h3, Nat.not_le.mp h3]

theorem filterMap_ifSome (p : α → Bool) (g : α → β) (l : List α) :
    l.filterMap (fun a => if p a then some (g a) else none) = (l.filter p).map g := by
  induction l with
  | nil => rfl
  | cons a as ih =>
    by_cases h : p a = true <;> simp [List.filterMap_cons, List.filter_cons, h, ih]

/-! ### Claim theorems -/

/-- Claim C1: whenever the enumeration loop completes with a raw product
list, the final (deduplicated) product list is obtained by keeping each
canonical key's first occurrence and dropping later occurrences silently
(the run still succeeds), and its entries are pairwise distinct. -/
theorem enumerate_products_nodup (mol : Molecule) (rxns : List Reaction)
    (raw : List String) (h : enumLoop mol rxns = some raw) :
    enumerate mol rxns = some (seriesUnique raw) ∧ (seriesUnique raw).Nodup :=
  ⟨by simp [enumerate, h], nodup_seriesUnique raw⟩

theorem enumerate_products_nodup_witness :
    enumerate mol2CF [rCl, rCl]
        = some (seriesUnique
            [molToSmiles (substAtom mol2CF 1 "Cl"), molToSmiles (substAtom mol2CF 1 "Cl")]) ∧
      (seriesUnique
        [molToSmiles (substAtom mol2CF 1 "Cl"), molToSmiles (substAtom mol2CF 1 "Cl")]).Nodup :=
  enumerate_products_nodup mol2CF [rCl, rCl]
    [molToSmiles (substAtom mol2CF 1 "Cl"), molToSmiles (substAtom mol2CF 1 "Cl")] (by decide)

/-- Claim C2, counterexample: on the CF2 test molecule with a CF2 rule and
a C-F rule, the C-F match `[0, 1]` has an atom set strictly contained in
the CF2 match `[0, 1, 2]`, yet the `"CF"` group still appears in the
default candidate list `r_groups_found_filtered` — the pipeline applies no
subsumption filter, refuting the claim that the default candidate set is
exactly the maximal matches under atom-set containment. -/
theorem subsumed_group_in_default_candidates :
    [0, 1] ∈ substructMatches patCF molCF2 ∧
      [0, 1, 2] ∈ substructMatches patCF2 molCF2 ∧
      atomSetSSubset [0, 1] [0, 1, 2] ∧
      ("CF", true) ∈ r_groups_found_filtered molCF2 rowsCF :=
  ⟨by decide, by decide, by decide, by decide⟩

/-- Claim C2, amended: the default candidate list applies no subsumption
filtering — it contains exactly the distinct R-group labels whose search
pattern matched (`Found == True`), regardless of atom-set containment
between matches; subsumed groups are removed only by the manual `iloc`
row selection. -/
theorem default_candidates_found_filter_only (mol : Molecule) (rows : List RuleRow)
    (pr : String × Bool) :
    pr ∈ r_groups_found_filtered mol rows ↔ pr ∈ r_groups_found mol rows ∧ pr.2 = true := by
  simp [r_groups_found_filtered, List.mem_filter]

theorem default_candidates_found_filter_only_witness :
    ("FCF", true) ∈ r_groups_found_filtered molCF2 rowsCF :=
  (default_candidates_found_filter_only molCF2 rowsCF ("FCF", true)).mpr (by decide)

/-- Claim C3: whenever the enumeration loop completes, it produced
exactly one product per selected rule (the output has one entry per
reaction), and each entry is the serialization of the product of the
FIRST match in the matcher's deterministic search order — even when the
pattern matches several sites. -/
theorem one_product_per_rule_first_match (mol : Molecule) (rxns : List Reaction)
    (out : List String) (h : enumLoop mol rxns = some out) :
    out.length = rxns.length ∧
      ∀ i (hi : i < rxns.length), ∃ m ms,
        substructMatches (rxns[i]).pattern mol = m :: ms ∧
        out[i]? = some (molToSmiles ((rxns[i]).transform mol m)) :=
  enumLoop_spec_aux mol rxns out h

theorem one_product_per_rule_first_match_witness :
    (substructMatches patCF mol2CF).length = 2 ∧
      [molToSmiles (substAtom mol2CF 1 "Cl")].length = [rCl].length :=
  ⟨by decide, (one_product_per_rule_first_match mol2CF [rCl]
      [molToSmiles (substAtom mol2CF 1 "Cl")] (by decide)).1⟩

/-- Claim C4, counterexample: the rule `rBad` rewrites to a product whose
single dangling aromatic bond fails the structural sanity check, yet the
run completes with no error and that product appears in the final
(deduplicated) product list, refuting the claim that such a product is
excluded and an `InvalidStructureError` surfaced. -/
theorem invalid_product_in_final_list :
    structuralSanityCheck badProduct = false ∧
      enumerate molCF2 [rBad, rCl]
        = some [molToSmiles badProduct, molToSmiles (substAtom molCF2 1 "Cl")] ∧
      molToSmiles badProduct ∈ (enumerate molCF2 [rBad, rCl]).getD [] :=
  ⟨by decide, by decide, by decide⟩

/-- Claim C4, amended: the enumeration loop applies no structural sanity
check — whenever the loop completes, each rule's first product appears in
the final product list even if it fails the structural sanity check, and
no error is surfaced for it (unrelated rules in the same run are
unaffected either way). -/
theorem invalid_product_kept_no_sanity_check (mol : Molecule) (rxns : List Reaction)
    (out : List String) (i : Nat) (hi : i < rxns.length) (m : List Nat)
    (ms : List (List Nat)) (h : enumLoop mol rxns = some out)
    (hm : substructMatches (rxns[i]).pattern mol = m :: ms)
    (_hbad : structuralSanityCheck ((rxns[i]).transform mol m) = false) :
    ∃ finalList, enumerate mol rxns = some finalList ∧
      molToSmiles ((rxns[i]).transform mol m) ∈ finalList := by
  obtain ⟨-, hidx⟩ := enumLoop_spec_aux mol rxns out h
  obtain ⟨m', ms', hm', hout⟩ := hidx i hi
  have hcons : m :: ms = m' :: ms' := hm.symm.trans hm'
  injection hcons with h1 h2
  refine ⟨seriesUnique out, by simp [enumerate, h], ?_⟩
  rw [mem_seriesUnique]
  rw [h1]
  exact List.mem_iff_getElem?.mpr ⟨i, hout⟩

theorem invalid_product_kept_no_sanity_check_witness :
    ∃ finalList, enumerate molCF2 [rBad, rCl] = some finalList ∧
      molToSmiles (([rBad, rCl][0]).transform molCF2 [0, 1]) ∈ finalList :=
  invalid_product_kept_no_sanity_check molCF2 [rBad, rCl]
    [molToSmiles badProduct, molToSmiles (substAtom molCF2 1 "Cl")] 0 (by decide)
    [0, 1] [[0, 2]] (by decide) (by decide) (by decide)

/-- Claim C5: the pipeline is a deterministic function of its inputs —
two invocations of the enumeration on the same input molecule and the
same selected reaction list produce identical ordered product lists. -/
theorem enumerate_deterministic (mol1 mol2 : Molecule) (rxns1 rxns2 : List Reaction)
    (hm : mol1 = mol2) (hr : rxns1 = rxns2) :
    enumerate mol1 rxns1 = enumerate mol2 rxns2 := by
  subst hm; subst hr; rfl

theorem enumerate_deterministic_witness :
    enumerate mol2CF [rCl] = enumerate mol2CF [rCl] :=
  enumerate_deterministic mol2CF mol2CF [rCl] [rCl] rfl rfl

/-- Claim C6: the deduplicated product list is in first-seen order (the
structural first-seen recursion), and the export writes the header line
once followed by exactly one line per unique product, preserving that
order. -/
theorem dedup_first_seen_order_and_export (mol : Molecule) (rxns : List Reaction)
    (raw : List String) (h : enumLoop mol rxns = some raw) :
    enumerate mol rxns = some (firstSeenSpec raw) ∧
      exportCsvLines (firstSeenSpec raw) = "Suggestions (SMILES)" :: firstSeenSpec raw ∧
      (exportCsvLines (firstSeenSpec raw)).length = (firstSeenSpec raw).length + 1 := by
  refine ⟨?_, rfl, by simp [exportCsvLines]⟩
  rw [enumerate, h]
  simp [seriesUnique_eq_firstSeenSpec]

theorem dedup_first_seen_order_and_export_witness :
    enumerate mol2CF [rCl, rCl]
        = some (firstSeenSpec
            [molToSmiles (substAtom mol2CF 1 "Cl"), molToSmiles (substAtom mol2CF 1 "Cl")]) ∧
      exportCsvLines (firstSeenSpec
            [molToSmiles (substAtom mol2CF 1 "Cl"), molToSmiles (substAtom mol2CF 1 "Cl")])
        = "Suggestions (SMILES)" :: firstSeenSpec
            [molToSmiles (substAtom mol2CF 1 "Cl"), molToSmiles (substAtom mol2CF 1 "Cl")] ∧
      (exportCsvLines (firstSeenSpec
            [molToSmiles (substAtom mol2CF 1 "Cl"), molToSmiles (substAtom mol2CF 1 "Cl")])).length
        = (firstSeenSpec
            [molToSmiles (substAtom mol2CF 1 "Cl"), molToSmiles (substAtom mol2CF 1 "Cl")]).length
            + 1 :=
  dedup_first_seen_order_and_export mol2CF [rCl, rCl]
    [molToSmiles (substAtom mol2CF 1 "Cl"), molToSmiles (substAtom mol2CF 1 "Cl")] (by decide)

/-- Claim C7: loading the rule table never aborts on malformed input —
the loaded table is exactly the accepted (well-formed, non-comment,
non-blank) lines of the file in order, each parsed into its fields, and
every line beginning with the comment marker `#` contributes no row. -/
theorem load_skips_malformed_and_comments (ncols : Nat) (lines : List String) :
    loadTable ncols lines
        = (lines.filter (wellFormedLine ncols)).map
            (fun l => padFields ncols (splitSemicolon l)) ∧
      ∀ l ∈ lines, isCommentLine l = true → parseCsvRow ncols l = none := by
  constructor
  · have hfun : parseCsvRow ncols = fun l =>
        if wellFormedLine ncols l then some (padFields ncols (splitSemicolon l)) else none :=
      funext (parseCsvRow_eq_ite ncols)
    rw [loadTable, hfun, filterMap_ifSome]
  · intro l _ hc
    simp [parseCsvRow, lineIsEmpty_eq_false_of_comment l hc, hc]

theorem load_skips_malformed_and_comments_witness :
    parseCsvRow 4 "# comment line" = none :=
  (load_skips_malformed_and_comments 4 ["# comment line", "a;b;c;d"]).2
    "# comment line" (by simp) (by decide)

/-- Claim C8: running the matcher once per distinct search pattern of the
table and reusing the memoized result for every rule row sharing that
pattern yields the same applicable-rule list as running the matcher
separately for every row. -/
theorem memoized_matching_equiv (mol : Molecule) (rows : List RuleRow) :
    findApplicableMemo mol rows = findApplicablePerRow mol rows := by
  unfold findApplicableMemo findApplicablePerRow
  apply List.filter_congr
  intro r hr
  have hmem : r.r_group_smarts ∈ unique_R_groups_smarts rows := by
    rw [unique_R_groups_smarts, mem_seriesUnique]
    exact List.mem_map_of_mem _ hr
  rw [unique_R_groups_smarts] at hmem ⊢
  rw [lookupB_map_self (fun p => hasSubstructMatch p mol) _ _ hmem]
  rfl

theorem memoized_matching_equiv_witness :
    findApplicableMemo molCF2 rowsCF = findApplicablePerRow molCF2 rowsCF :=
  memoized_matching_equiv molCF2 rowsCF

/-- Claim C9: the enumeration loop completes exactly when every selected
reaction yields at least one product set against the input molecule; if
some selected reaction yields none, the unguarded `products[0][0]`
indexing raises and the entire enumeration aborts (the loop returns no
partial output). -/
theorem enumLoop_total_iff_products_nonempty (mol : Molecule) (rxns : List Reaction) :
    ((enumLoop mol rxns).isSome = true ↔ ∀ r ∈ rxns, runReactants r mol ≠ []) ∧
      ((∃ r ∈ rxns, runReactants r mol = []) → enumLoop mol rxns = none) := by
  refine ⟨enumLoop_isSome_iff mol rxns, ?_⟩
  rintro ⟨r, hr, he⟩
  cases hopt : enumLoop mol rxns with
  | none => rfl
  | some out =>
    have hsome : (enumLoop mol rxns).isSome = true := by simp [hopt]
    exact absurd he ((enumLoop_isSome_iff mol rxns).mp hsome r hr)

theorem enumLoop_total_iff_products_nonempty_witness :
    enumLoop molCF2 [rNone, rCl] = none :=
  (enumLoop_total_iff_products_nonempty molCF2 [rNone, rCl]).2
    ⟨rNone, by simp, by decide⟩

/-- Claim C10: in the `r_groups_found` table, the entry at each position
pairs the distinct-SMILES label at that position with the
`HasSubstructMatch` flag of the distinct-SMARTS pattern at the same
position (purely positional pairing); consequently each flag describes
its labelled R-group whenever the two distinct-value columns have equally
many entries that co-occur rowwise in the same order. -/
theorem found_flags_positional_pairing (mol : Molecule) (rows : List RuleRow) :
    (∀ pr ∈ r_groups_found mol rows, ∃ (i : Nat) (p : Pattern),
        (unique_R_groups_smiles rows)[i]? = some pr.1 ∧
        (unique_R_groups_smarts rows)[i]? = some p ∧
        pr.2 = hasSubstructMatch p mol) ∧
    ((unique_R_groups_smiles rows).length = (unique_R_groups_smarts rows).length →
      (∀ sp ∈ (unique_R_groups_smiles rows).zip (unique_R_groups_smarts rows),
        ∃ r ∈ rows, r.r_group = sp.1 ∧ r.r_group_smarts = sp.2) →
      ∀ pr ∈ r_groups_found mol rows, ∃ r ∈ rows,
        r.r_group = pr.1 ∧ pr.2 = hasSubstructMatch r.r_group_smarts mol) := by
  have hsplit : ∀ pr ∈ r_groups_found mol rows, ∃ (i : Nat) (p : Pattern),
      (unique_R_groups_smiles rows)[i]? = some pr.1 ∧
      (unique_R_groups_smarts rows)[i]? = some p ∧
      pr.2 = hasSubstructMatch p mol := by
    intro pr hpr
    rcases List.mem_iff_getElem?.mp hpr with ⟨i, hi⟩
    rcases (zip_getElem?_eq_some _ _ i pr.1 pr.2).mp (by simpa using hi) with ⟨h1, h2⟩
    rw [List.getElem?_map] at h2
    rcases Option.map_eq_some'.mp h2 with ⟨p, hp, hfp⟩
    exact ⟨i, p, h1, hp, hfp.symm⟩
  refine ⟨hsplit, ?_⟩
  intro _ haligned pr hpr
  rcases hsplit pr hpr with ⟨i, p, h1, hp, hfp⟩
  have hzip : (pr.1, p) ∈ (unique_R_groups_smiles rows).zip (unique_R_groups_smarts rows) :=
    List.mem_iff_getElem?.mpr ⟨i, (zip_getElem?_eq_some _ _ i pr.1 p).mpr ⟨h1, hp⟩⟩
  rcases haligned (pr.1, p) hzip with ⟨r, hr, hg, hs⟩
  exact ⟨r, hr, hg, by rw [hfp, hs]⟩

theorem found_flags_positional_pairing_witness :
    ∃ r ∈ rowsCF, r.r_group = "FCF" ∧ true = hasSubstructMatch r.r_group_smarts molCF2 :=
  (found_flags_positional_pairing molCF2 rowsCF).2 (by decide) (by decide)
    ("FCF", true) (by decide)

end IsoRep
